import Mathlib

/-!
Verification of the motwot_gcp synchronization engine against its
specification.  The Python sources are shallowly embedded: each Lean
definition mirrors one Python function (names are kept), with warehouse
tables as lists of rows, filesystem/network effects as explicit values,
and exceptions as `Except`.
-/

namespace MotwotGcp

/-! ## Warehouse rows and the MERGE statement of `GCPUploader.merge_delta`
    (src/data_runner/gcp_upload.py, lines 86-123).

A row of the main/staging table.  `registration` is the natural key used
in the `ON` clause; `modification` is the BigQuery `modification` column
(`none` models SQL NULL / an unset field); `payload` abstracts all the
remaining non-key columns as one value.  The generated `UPDATE SET`
clause assigns every column except `registration`, i.e. both
`modification` and `payload`. -/
structure VRow where
  registration : Nat
  modification : Option String
  payload : Nat
deriving DecidableEq, Repr

/-- Test of the SQL predicate `delta.modification = 'DELETED'` (NULL compares false). -/
def isDeleted (s : VRow) : Bool := s.modification == some "DELETED"

/-- Test of the SQL predicate `delta.modification IN ('UPDATED', 'CREATED')`. -/
def isUpserted (s : VRow) : Bool :=
  s.modification == some "UPDATED" || s.modification == some "CREATED"

/-- Effect of the `WHEN MATCHED` branches of the MERGE statement on one
main-table row `r`: a staging row with the same `registration` either
deletes `r` (`DELETED`), replaces all non-key columns (`UPDATED`/`CREATED`),
or — for any other or unset modification — leaves `r` unchanged, because
no `WHEN MATCHED` clause applies. -/
def mergeMatched (staging : List VRow) (r : VRow) : Option VRow :=
  match staging.find? (fun s => s.registration == r.registration) with
  | none => some r
  | some s =>
    if isDeleted s then none
    else if isUpserted s then
      some { registration := r.registration
             modification := s.modification
             payload := s.payload }
    else some r

/-- Effect of the `WHEN NOT MATCHED` branch: staging rows whose key has no
main-table row are inserted only when `modification IN ('CREATED','UPDATED')`. -/
def mergeInserts (main staging : List VRow) : List VRow :=
  staging.filter (fun s =>
    main.all (fun r => !(r.registration == s.registration)) && isUpserted s)

/-- The MERGE statement issued by `merge_delta`: the main table after
running the three `WHEN` branches over `(main, staging)`. -/
def merge_delta (main staging : List VRow) : List VRow :=
  main.filterMap (mergeMatched staging) ++ mergeInserts main staging

/-- The `fetch_and_load` method (src/data_runner/gcp_upload.py, lines
77-84): a `WRITE_APPEND` load of the file's rows straight into the main
table, with no key comparison of any kind. -/
def fetch_and_load (main fileRows : List VRow) : List VRow :=
  main ++ fileRows

/-! ### Basic facts about the merge embedding -/

theorem mergeMatched_registration {staging : List VRow} {r r' : VRow}
    (h : mergeMatched staging r = some r') : r'.registration = r.registration := by
  unfold mergeMatched at h
  cases hf : staging.find? (fun s => s.registration == r.registration) with
  | none => rw [hf] at h; cases h; rfl
  | some s =>
    rw [hf] at h
    by_cases hd : isDeleted s
    · simp [hd] at h
    · by_cases hu : isUpserted s
      · simp [hd, hu] at h; cases h; rfl
      · simp [hd, hu] at h; cases h; rfl

theorem not_isDeleted_of_isUpserted {s : VRow} (h : isUpserted s = true) :
    isDeleted s = false := by
  unfold isUpserted at h
  unfold isDeleted
  rcases Bool.or_eq_true_iff.mp h with h1 | h1 <;>
    simp only [beq_iff_eq] at h1 <;> simp [h1]

theorem mem_key_of_mem_mergePart {staging : List VRow} {main : List VRow} {r' : VRow}
    (h : r' ∈ main.filterMap (mergeMatched staging)) :
    ∃ r ∈ main, r'.registration = r.registration := by
  rcases List.mem_filterMap.mp h with ⟨r, hr, hm⟩
  exact ⟨r, hr, mergeMatched_registration hm⟩

theorem key_inj_of_nodup {l : List VRow}
    (h : (l.map VRow.registration).Nodup) :
    ∀ x ∈ l, ∀ y ∈ l, x.registration = y.registration → x = y :=
  fun x hx y hy hxy => List.inj_on_of_nodup_map h hx hy hxy

theorem mergePart_keys_nodup (staging : List VRow) :
    ∀ main : List VRow, (main.map VRow.registration).Nodup →
      ((main.filterMap (mergeMatched staging)).map VRow.registration).Nodup := by
  intro main
  induction main with
  | nil => intro _; simp
  | cons a rest ih =>
    intro h
    rw [List.map_cons, List.nodup_cons] at h
    obtain ⟨ha, hrest⟩ := h
    rw [List.filterMap_cons]
    cases hm : mergeMatched staging a with
    | none => exact ih hrest
    | some a' =>
      rw [List.map_cons, List.nodup_cons]
      refine ⟨?_, ih hrest⟩
      intro hmem
      rcases List.mem_map.mp hmem with ⟨r', hr', hreg⟩
      rcases mem_key_of_mem_mergePart hr' with ⟨r, hr, hkey⟩
      apply ha
      rw [List.mem_map]
      refine ⟨r, hr, ?_⟩
      rw [← hkey, hreg, mergeMatched_registration hm]

theorem filter_eq_singleton_of_nodup {α : Type} {l : List α} {p : α → Bool} {a : α}
    (hnd : l.Nodup) (ha : a ∈ l) (hp : p a = true)
    (huniq : ∀ x ∈ l, p x = true → x = a) :
    l.filter p = [a] := by
  induction l with
  | nil => cases ha
  | cons x xs ih =>
    rw [List.nodup_cons] at hnd
    obtain ⟨hx, hxs⟩ := hnd
    by_cases hpx : p x = true
    · have hxa : x = a := huniq x (List.mem_cons_self x xs) hpx
      rw [List.filter_cons_of_pos hpx]
      subst hxa
      have hnil : xs.filter p = [] := by
        rw [List.filter_eq_nil_iff]
        intro y hy hpy
        exact hx ((huniq y (List.mem_cons_of_mem _ hy) hpy) ▸ hy)
      rw [hnil]
    · rw [List.filter_cons_of_neg (by simpa using hpx)]
      have hax : a ≠ x := fun he => hpx (he ▸ hp)
      have ha' : a ∈ xs := by
        rcases List.mem_cons.mp ha with h | h
        · exact absurd h hax
        · exact h
      exact ih hxs ha' (fun y hy hpy => huniq y (List.mem_cons_of_mem _ hy) hpy)

theorem mergeMatched_of_unmatched {staging : List VRow} {r0 : VRow}
    (h : ∀ s ∈ staging, s.registration ≠ r0.registration) :
    mergeMatched staging r0 = some r0 := by
  unfold mergeMatched
  have hf : staging.find? (fun s => s.registration == r0.registration) = none :=
    List.find?_eq_none.mpr (fun s hsmem => by simp [h s hsmem])
  rw [hf]

theorem mergeMatched_find {staging : List VRow} {s r0 : VRow}
    (hs : (staging.map VRow.registration).Nodup)
    (hmem : s ∈ staging) (hkey : r0.registration = s.registration) :
    staging.find? (fun x => x.registration == r0.registration) = some s := by
  cases hf : staging.find? (fun x => x.registration == r0.registration) with
  | none =>
    exfalso
    have := List.find?_eq_none.mp hf s hmem
    simp [hkey] at this
  | some s' =>
    have hs'mem := List.mem_of_find?_eq_some hf
    have hs'key := List.find?_some hf
    simp only [beq_iff_eq] at hs'key
    have heq : s' = s := by
      apply key_inj_of_nodup hs s' hs'mem s hmem
      rw [hs'key, hkey]
    rw [heq]

theorem mergeMatched_of_deleted {staging : List VRow} {s r0 : VRow}
    (hs : (staging.map VRow.registration).Nodup)
    (hmem : s ∈ staging) (hd : isDeleted s = true)
    (hkey : r0.registration = s.registration) :
    mergeMatched staging r0 = none := by
  unfold mergeMatched
  rw [mergeMatched_find hs hmem hkey]
  simp [hd]

theorem mergeMatched_of_upserted {staging : List VRow} {s r0 : VRow}
    (hs : (staging.map VRow.registration).Nodup)
    (hmem : s ∈ staging) (hu : isUpserted s = true)
    (hkey : r0.registration = s.registration) :
    mergeMatched staging r0 = some s := by
  unfold mergeMatched
  rw [mergeMatched_find hs hmem hkey]
  simp [not_isDeleted_of_isUpserted hu, hu]
  cases s
  simp_all

theorem mergeMatched_of_other {staging : List VRow} {s r0 : VRow}
    (hs : (staging.map VRow.registration).Nodup)
    (hmem : s ∈ staging) (hd : isDeleted s = false) (hu : isUpserted s = false)
    (hkey : r0.registration = s.registration) :
    mergeMatched staging r0 = some r0 := by
  unfold mergeMatched
  rw [mergeMatched_find hs hmem hkey]
  simp [hd, hu]

/-- Holds of a main-table row whose natural key appears nowhere in staging. -/
def keyNotStaged (staging : List VRow) (r : VRow) : Bool :=
  staging.all (fun s => !(s.registration == r.registration))

theorem keyNotStaged_congr {staging : List VRow} {r r' : VRow}
    (h : r.registration = r'.registration) :
    keyNotStaged staging r = keyNotStaged staging r' := by
  unfold keyNotStaged
  simp [h]

theorem keyNotStaged_false_of_mem {staging : List VRow} {s r : VRow}
    (hmem : s ∈ staging) (hkey : s.registration = r.registration) :
    keyNotStaged staging r = false := by
  unfold keyNotStaged
  rw [List.all_eq_false]
  exact ⟨s, hmem, by simp [hkey]⟩

/-- C10: the merge statement's three branches act only on keys present in
staging; every main-table row whose `registration` is absent from staging
survives the MERGE unchanged (and in its original order), and nothing new
with such a key is added. -/
theorem merge_delta_frame (main staging : List VRow) :
    (merge_delta main staging).filter (keyNotStaged staging)
      = main.filter (keyNotStaged staging) := by
  unfold merge_delta
  rw [List.filter_append]
  have hB : (mergeInserts main staging).filter (keyNotStaged staging) = [] := by
    rw [List.filter_eq_nil_iff]
    intro s hsmem hp
    have hsstag : s ∈ staging := List.mem_of_mem_filter hsmem
    rw [keyNotStaged_false_of_mem hsstag rfl] at hp
    cases hp
  rw [hB, List.append_nil]
  clear hB
  induction main with
  | nil => simp
  | cons r rest ih =>
    cases hm : mergeMatched staging r with
    | none =>
      rw [List.filterMap_cons_none hm]
      have hp : keyNotStaged staging r = false := by
        unfold mergeMatched at hm
        cases hf : staging.find? (fun s => s.registration == r.registration) with
        | none => rw [hf] at hm; cases hm
        | some s =>
          have hsmem := List.mem_of_find?_eq_some hf
          have hskey := List.find?_some hf
          simp only [beq_iff_eq] at hskey
          exact keyNotStaged_false_of_mem hsmem hskey
      rw [List.filter_cons_of_neg (by simp [hp])]
      exact ih
    | some r' =>
      rw [List.filterMap_cons_some hm]
      have hkey : r'.registration = r.registration := mergeMatched_registration hm
      by_cases hp : keyNotStaged staging r = true
      · have hre : r' = r := by
          have hnone : mergeMatched staging r = some r := by
            apply mergeMatched_of_unmatched
            intro s hsmem heq
            have := keyNotStaged_false_of_mem hsmem heq
            rw [hp] at this
            cases this
          rw [hm] at hnone
          exact Option.some.inj hnone
        subst hre
        rw [List.filter_cons_of_pos hp, List.filter_cons_of_pos hp, ih]
      · have hpf : keyNotStaged staging r = false := by
          cases h : keyNotStaged staging r
          · rfl
          · exact absurd h hp
        have hpf' : keyNotStaged staging r' = false := by
          rw [keyNotStaged_congr hkey.symm] at hpf
          exact hpf
        rw [List.filter_cons_of_neg (by simp [hpf']),
            List.filter_cons_of_neg (by simp [hpf])]
        exact ih

/-- C2 counterexample: a staged row whose `modification` is unset (SQL
NULL) and whose key has no main-table row is not inserted by the MERGE
statement — against an empty main table the merge output is empty, so the
row was not "unconditionally inserted". -/
theorem merge_unset_modification_cex :
    VRow.mk 1 none 7 ∈ [VRow.mk 1 none 7]
      ∧ isDeleted (VRow.mk 1 none 7) = false
      ∧ isUpserted (VRow.mk 1 none 7) = false
      ∧ merge_delta [] [VRow.mk 1 none 7] = [] := by
  refine ⟨by simp, by decide, by decide, ?_⟩
  rfl

/-- C2 amended: during `merge_delta` a staged row whose modification is
unset or outside DELETED/CREATED/UPDATED is ignored: a matched main row
is kept unchanged, an unmatched one is not inserted.  The unconditional
no-conflict-check append is the separate `fetch_and_load` path, which
appends the file's rows to the main table. -/
theorem merge_other_modification_spec (main staging : List VRow) (s : VRow)
    (hs : (staging.map VRow.registration).Nodup)
    (hmem : s ∈ staging) (hd : isDeleted s = false) (hu : isUpserted s = false) :
    (∀ r ∈ main, r.registration = s.registration → r ∈ merge_delta main staging)
    ∧ ((∀ r ∈ main, r.registration ≠ s.registration) →
        ∀ r' ∈ merge_delta main staging, r'.registration ≠ s.registration)
    ∧ (∀ fileRows : List VRow, fetch_and_load main fileRows = main ++ fileRows) := by
  refine ⟨?_, ?_, fun _ => rfl⟩
  · intro r hr hkey
    unfold merge_delta
    rw [List.mem_append]
    left
    rw [List.mem_filterMap]
    exact ⟨r, hr, mergeMatched_of_other hs hmem hd hu hkey⟩
  · intro hnone r' hr' hkey
    unfold merge_delta at hr'
    rw [List.mem_append] at hr'
    rcases hr' with h | h
    · rcases mem_key_of_mem_mergePart h with ⟨r, hrmem, hrk⟩
      exact hnone r hrmem (by rw [← hrk, hkey])
    · have hr'stag : r' ∈ staging := List.mem_of_mem_filter h
      have hup : isUpserted r' = true := by
        have := List.of_mem_filter h
        exact (Bool.and_eq_true _ _).mp this |>.2
      have : r' = s := key_inj_of_nodup hs r' hr'stag s hmem hkey
      rw [this] at hup
      rw [hup] at hu
      cases hu

/-- Witness for `merge_other_modification_spec` at a concrete input. -/
theorem merge_other_modification_spec_witness :
    (([VRow.mk 2 none 7].map VRow.registration).Nodup
      ∧ VRow.mk 2 none 7 ∈ [VRow.mk 2 none 7]
      ∧ isDeleted (VRow.mk 2 none 7) = false
      ∧ isUpserted (VRow.mk 2 none 7) = false)
    ∧ ((∀ r ∈ [VRow.mk 1 none 5], r.registration = 2 →
          r ∈ merge_delta [VRow.mk 1 none 5] [VRow.mk 2 none 7])
        ∧ ((∀ r ∈ [VRow.mk 1 none 5], r.registration ≠ 2) →
            ∀ r' ∈ merge_delta [VRow.mk 1 none 5] [VRow.mk 2 none 7],
              r'.registration ≠ 2)
        ∧ (∀ fileRows : List VRow,
            fetch_and_load [VRow.mk 1 none 5] fileRows
              = [VRow.mk 1 none 5] ++ fileRows)) :=
  ⟨⟨by decide, by simp, by decide, by decide⟩,
    merge_other_modification_spec [VRow.mk 1 none 5] [VRow.mk 2 none 7]
      (VRow.mk 2 none 7) (by decide) (by simp) (by decide) (by decide)⟩

/-- C1: after the MERGE of a staged batch (with one staging row per key,
and the main table holding at most one row per key, its standing
invariant), the main table has no row for a key staging marks DELETED;
for every key marked CREATED or UPDATED it has exactly one row, equal to
the staging row; a key that had a main row was updated through the
`WHEN MATCHED` branch (and not inserted), a key with no main row was
inserted through the `WHEN NOT MATCHED` branch. -/
theorem merge_delta_reconciles (main staging : List VRow)
    (hm : (main.map VRow.registration).Nodup)
    (hs : (staging.map VRow.registration).Nodup) :
    (∀ s ∈ staging, isDeleted s = true →
        ∀ r ∈ merge_delta main staging, r.registration ≠ s.registration)
    ∧ (∀ s ∈ staging, isUpserted s = true →
        (merge_delta main staging).filter
          (fun r => r.registration == s.registration) = [s])
    ∧ (∀ s ∈ staging, isUpserted s = true →
        ((∃ r0 ∈ main, r0.registration = s.registration) →
          s ∈ main.filterMap (mergeMatched staging) ∧ s ∉ mergeInserts main staging)
        ∧ ((∀ r ∈ main, r.registration ≠ s.registration) →
          s ∈ mergeInserts main staging)) := by
  refine ⟨?_, ?_, ?_⟩
  · intro s hsmem hdel r hr hkey
    unfold merge_delta at hr
    rw [List.mem_append] at hr
    rcases hr with h | h
    · rcases List.mem_filterMap.mp h with ⟨r0, hr0, hmm⟩
      have hk0 : r.registration = r0.registration := mergeMatched_registration hmm
      have hnone : mergeMatched staging r0 = none :=
        mergeMatched_of_deleted hs hsmem hdel (by rw [← hk0, hkey])
      rw [hnone] at hmm
      cases hmm
    · unfold mergeInserts at h
      have hmem' : r ∈ staging := List.mem_of_mem_filter h
      have hpred := (List.mem_filter.mp h).2
      simp only [Bool.and_eq_true] at hpred
      have hup : isUpserted r = true := hpred.2
      have heq : r = s := key_inj_of_nodup hs r hmem' s hsmem hkey
      rw [heq] at hup
      rw [not_isDeleted_of_isUpserted hup] at hdel
      cases hdel
  · intro s hsmem hup
    unfold merge_delta
    rw [List.filter_append]
    by_cases hex : ∃ r0 ∈ main, r0.registration = s.registration
    · rcases hex with ⟨r0, hr0, hk0⟩
      have hA : (main.filterMap (mergeMatched staging)).filter
          (fun r => r.registration == s.registration) = [s] := by
        apply filter_eq_singleton_of_nodup
        · exact List.Nodup.of_map _ (mergePart_keys_nodup staging main hm)
        · rw [List.mem_filterMap]
          exact ⟨r0, hr0, mergeMatched_of_upserted hs hsmem hup hk0⟩
        · simp
        · intro x hx hpx
          simp only [beq_iff_eq] at hpx
          rcases List.mem_filterMap.mp hx with ⟨r1, hr1, hmm1⟩
          have hk1 : x.registration = r1.registration := mergeMatched_registration hmm1
          have hr10 : r1 = r0 :=
            key_inj_of_nodup hm r1 hr1 r0 hr0 (by rw [← hk1, hpx, ← hk0])
          subst hr10
          have hsome := mergeMatched_of_upserted hs hsmem hup hk0
          rw [hsome] at hmm1
          exact (Option.some.inj hmm1).symm
      have hB : (mergeInserts main staging).filter
          (fun r => r.registration == s.registration) = [] := by
        rw [List.filter_eq_nil_iff]
        intro x hx hpx
        unfold mergeInserts at hx
        simp only [beq_iff_eq] at hpx
        have hpredx := (List.mem_filter.mp hx).2
        simp only [Bool.and_eq_true] at hpredx
        have hrx := List.all_eq_true.mp hpredx.1 r0 hr0
        simp [hk0, hpx] at hrx
      rw [hA, hB, List.append_nil]
    · push_neg at hex
      have hA : (main.filterMap (mergeMatched staging)).filter
          (fun r => r.registration == s.registration) = [] := by
        rw [List.filter_eq_nil_iff]
        intro x hx hpx
        simp only [beq_iff_eq] at hpx
        rcases mem_key_of_mem_mergePart hx with ⟨r1, hr1, hk1⟩
        exact hex r1 hr1 (by rw [← hk1, hpx])
      have hB : (mergeInserts main staging).filter
          (fun r => r.registration == s.registration) = [s] := by
        unfold mergeInserts
        rw [List.filter_filter]
        apply filter_eq_singleton_of_nodup
        · exact List.Nodup.of_map _ hs
        · exact hsmem
        · simp only [Bool.and_eq_true]
          refine ⟨by simp, ?_, hup⟩
          rw [List.all_eq_true]
          intro r hr
          simp [hex r hr]
        · intro x hx hpx
          simp only [Bool.and_eq_true, beq_iff_eq] at hpx
          exact key_inj_of_nodup hs x hx s hsmem hpx.1
      rw [hA, hB, List.nil_append]
  · intro s hsmem hup
    constructor
    · rintro ⟨r0, hr0, hk0⟩
      constructor
      · rw [List.mem_filterMap]
        exact ⟨r0, hr0, mergeMatched_of_upserted hs hsmem hup hk0⟩
      · intro hins
        unfold mergeInserts at hins
        have hpredi := (List.mem_filter.mp hins).2
        simp only [Bool.and_eq_true] at hpredi
        have hrx := List.all_eq_true.mp hpredi.1 r0 hr0
        simp [hk0] at hrx
    · intro hnone
      unfold mergeInserts
      rw [List.mem_filter]
      refine ⟨hsmem, ?_⟩
      simp only [Bool.and_eq_true]
      refine ⟨?_, hup⟩
      rw [List.all_eq_true]
      intro r hr
      simp [hnone r hr]

/-- Witness for `merge_delta_reconciles`: a concrete three-row main table
merged with a batch holding one DELETED, one UPDATED (matched) and one
CREATED (unmatched) key. -/
theorem merge_delta_reconciles_witness :
    ((([VRow.mk 1 (some "CREATED") 10, VRow.mk 2 none 20,
        VRow.mk 4 none 40].map VRow.registration).Nodup)
      ∧ (([VRow.mk 1 (some "DELETED") 0, VRow.mk 2 (some "UPDATED") 99,
          VRow.mk 3 (some "CREATED") 33].map VRow.registration).Nodup))
    ∧ ((∀ s ∈ [VRow.mk 1 (some "DELETED") 0, VRow.mk 2 (some "UPDATED") 99,
          VRow.mk 3 (some "CREATED") 33], isDeleted s = true →
        ∀ r ∈ merge_delta
            [VRow.mk 1 (some "CREATED") 10, VRow.mk 2 none 20, VRow.mk 4 none 40]
            [VRow.mk 1 (some "DELETED") 0, VRow.mk 2 (some "UPDATED") 99,
              VRow.mk 3 (some "CREATED") 33],
          r.registration ≠ s.registration)
      ∧ (∀ s ∈ [VRow.mk 1 (some "DELETED") 0, VRow.mk 2 (some "UPDATED") 99,
            VRow.mk 3 (some "CREATED") 33], isUpserted s = true →
          (merge_delta
              [VRow.mk 1 (some "CREATED") 10, VRow.mk 2 none 20, VRow.mk 4 none 40]
              [VRow.mk 1 (some "DELETED") 0, VRow.mk 2 (some "UPDATED") 99,
                VRow.mk 3 (some "CREATED") 33]).filter
            (fun r => r.registration == s.registration) = [s])
      ∧ (∀ s ∈ [VRow.mk 1 (some "DELETED") 0, VRow.mk 2 (some "UPDATED") 99,
            VRow.mk 3 (some "CREATED") 33], isUpserted s = true →
          ((∃ r0 ∈ [VRow.mk 1 (some "CREATED") 10, VRow.mk 2 none 20,
                VRow.mk 4 none 40], r0.registration = s.registration) →
            s ∈ [VRow.mk 1 (some "CREATED") 10, VRow.mk 2 none 20,
                VRow.mk 4 none 40].filterMap
              (mergeMatched [VRow.mk 1 (some "DELETED") 0,
                VRow.mk 2 (some "UPDATED") 99, VRow.mk 3 (some "CREATED") 33])
            ∧ s ∉ mergeInserts
                [VRow.mk 1 (some "CREATED") 10, VRow.mk 2 none 20, VRow.mk 4 none 40]
                [VRow.mk 1 (some "DELETED") 0, VRow.mk 2 (some "UPDATED") 99,
                  VRow.mk 3 (some "CREATED") 33])
          ∧ ((∀ r ∈ [VRow.mk 1 (some "CREATED") 10, VRow.mk 2 none 20,
                VRow.mk 4 none 40], r.registration ≠ s.registration) →
            s ∈ mergeInserts
                [VRow.mk 1 (some "CREATED") 10, VRow.mk 2 none 20, VRow.mk 4 none 40]
                [VRow.mk 1 (some "DELETED") 0, VRow.mk 2 (some "UPDATED") 99,
                  VRow.mk 3 (some "CREATED") 33]))) :=
  ⟨⟨by decide, by decide⟩,
    merge_delta_reconciles
      [VRow.mk 1 (some "CREATED") 10, VRow.mk 2 none 20, VRow.mk 4 none 40]
      [VRow.mk 1 (some "DELETED") 0, VRow.mk 2 (some "UPDATED") 99,
        VRow.mk 3 (some "CREATED") 33]
      (by decide) (by decide)⟩

/-! ## Staging lifecycle of `merge_delta` (src/data_runner/gcp_upload.py,
    lines 86-123) -/

/-- State of the warehouse as seen by `merge_delta`: the durable main
table and the staging table (`none` means the table does not exist). -/
structure Warehouse where
  main : List VRow
  staging : Option (List VRow)
deriving DecidableEq, Repr

/-- One run of `GCPUploader.merge_delta` as a step sequence:
(1) load the file into the staging table with `WRITE_TRUNCATE`, creating
or replacing it; (2) run the MERGE statement — `mergeOk` models whether
the warehouse executes it or raises, and on failure the Python exception
propagates so no later step runs; (3) drop the staging table.  Returns
the final warehouse state and the outcome surfaced to the caller. -/
def merge_delta_run (mergeOk : Bool) (w : Warehouse) (fileRows : List VRow) :
    Warehouse × Except String Unit :=
  let staged : Warehouse := { main := w.main, staging := some fileRows }
  if mergeOk then
    ({ main := merge_delta staged.main fileRows, staging := none }, Except.ok ())
  else
    (staged, Except.error "MergeError")

/-- C9: `merge_delta` drops the staging table exactly when the MERGE
statement succeeds — on success the run finishes with no staging table;
on a warehouse-side merge failure the error is surfaced to the caller
and the freshly loaded staging table is left in place. -/
theorem merge_delta_drop_iff (mergeOk : Bool) (w : Warehouse) (fileRows : List VRow) :
    ((merge_delta_run mergeOk w fileRows).2 = Except.ok () ↔
      (merge_delta_run mergeOk w fileRows).1.staging = none)
    ∧ (mergeOk = false →
        (merge_delta_run mergeOk w fileRows).2 = Except.error "MergeError"
        ∧ (merge_delta_run mergeOk w fileRows).1.staging = some fileRows)
    ∧ (mergeOk = true →
        (merge_delta_run mergeOk w fileRows).1
          = { main := merge_delta w.main fileRows, staging := none }) := by
  cases mergeOk <;> simp [merge_delta_run]

/-- Witness for `merge_delta_drop_iff` at concrete inputs, covering both
the failing and the succeeding merge. -/
theorem merge_delta_drop_iff_witness :
    ((merge_delta_run false (Warehouse.mk [VRow.mk 1 none 5] none)
          [VRow.mk 1 (some "DELETED") 0]).2 = Except.error "MergeError"
      ∧ (merge_delta_run false (Warehouse.mk [VRow.mk 1 none 5] none)
          [VRow.mk 1 (some "DELETED") 0]).1.staging
        = some [VRow.mk 1 (some "DELETED") 0])
    ∧ (merge_delta_run true (Warehouse.mk [VRow.mk 1 none 5] none)
          [VRow.mk 1 (some "DELETED") 0]).1
        = Warehouse.mk (merge_delta [VRow.mk 1 none 5] [VRow.mk 1 (some "DELETED") 0])
            none :=
  ⟨(merge_delta_drop_iff false (Warehouse.mk [VRow.mk 1 none 5] none)
      [VRow.mk 1 (some "DELETED") 0]).2.1 rfl,
    (merge_delta_drop_iff true (Warehouse.mk [VRow.mk 1 none 5] none)
      [VRow.mk 1 (some "DELETED") 0]).2.2 rfl⟩

/-! ## The weekly run (src/main.py, `perform_weekly_delta_merge`) -/

/-- Parameter names of `GCPUploader.merge_delta`
(src/data_runner/gcp_upload.py line 86: `def merge_delta(self, file_path,
limit=None)`), `self` excluded. -/
def merge_delta_params : List String := ["file_path", "limit"]

/-- Keyword arguments passed at both `merge_delta` call sites of
`perform_weekly_delta_merge` (src/main.py lines 28 and 30). -/
def weekly_call_kwargs : List String := ["no_merge", "append_staging"]

/-- Python keyword-call semantics for one `uploader.merge_delta(...)`
call: a keyword argument that is not among the callee's parameters
raises a TypeError before the body runs. -/
def call_merge_delta (kwargs : List String) : Except String Unit :=
  match kwargs.find? (fun k => !(merge_delta_params.contains k)) with
  | some k =>
    Except.error ("TypeError: merge_delta() got an unexpected keyword argument " ++ k)
  | none => Except.ok ()

/-- The upload loop of `perform_weekly_delta_merge` (src/main.py lines
25-31) over the normalized period files: each iteration calls
`merge_delta` with the keyword arguments `no_merge` and `append_staging`.
Returns how many `merge_delta` calls completed, or the first raised
error. -/
def perform_weekly_delta_merge (filepaths : List String) : Except String Nat :=
  match filepaths with
  | [] => Except.ok 0
  | _fp :: rest =>
    match call_merge_delta weekly_call_kwargs with
    | Except.error e => Except.error e
    | Except.ok _ =>
      match perform_weekly_delta_merge rest with
      | Except.error e => Except.error e
      | Except.ok n => Except.ok (n + 1)

/-- C3: the weekly run's upload loop raises a TypeError on its first
`merge_delta` call for every non-empty list of period files — `main.py`
passes keyword arguments `no_merge`/`append_staging` that
`merge_delta(self, file_path, limit=None)` does not accept — so nothing
is staged and no merge pass runs, against the spec's
stage-cumulatively-then-merge-once design. -/
theorem perform_weekly_delta_merge_raises (filepaths : List String)
    (h : filepaths ≠ []) :
    perform_weekly_delta_merge filepaths
      = Except.error
          "TypeError: merge_delta() got an unexpected keyword argument no_merge" := by
  cases filepaths with
  | nil => exact absurd rfl h
  | cons fp rest => rfl

/-- Witness for `perform_weekly_delta_merge_raises` on a one-file week. -/
theorem perform_weekly_delta_merge_raises_witness :
    (["delta-light-vehicle_02-02-2026.json"] : List String) ≠ []
      ∧ perform_weekly_delta_merge ["delta-light-vehicle_02-02-2026.json"]
        = Except.error
            "TypeError: merge_delta() got an unexpected keyword argument no_merge" :=
  ⟨by simp, perform_weekly_delta_merge_raises ["delta-light-vehicle_02-02-2026.json"]
    (by simp)⟩

/-! ## Token expiry check (src/auth.py, `_is_token_expired`, lines 98-129) -/

/-- One entry of the persisted cache's "AccessToken" section.
`expires_on` is the integer value of the entry's expiry field; `none`
models an absent field and `some 0` a present falsy value — the code
guards with Python truthiness (`if expires_on:`) before comparing. -/
structure TokenEntry where
  expires_on : Option Int
deriving DecidableEq, Repr

/-- The decoded cache file: the values of its "AccessToken" object, in
dict iteration (insertion) order. -/
structure CacheData where
  accessTokens : List TokenEntry
deriving DecidableEq, Repr

/-- The token loop of `_is_token_expired`: the first entry with a truthy
`expires_on` decides via `now >= int(expires_on) - 60`; entries without
one are passed over; if no entry decides, the function falls through to
`return True`. -/
def check_tokens (now : Int) : List TokenEntry → Bool
  | [] => true
  | t :: ts =>
    match t.expires_on with
    | some e => if e ≠ 0 then decide (now ≥ e - 60) else check_tokens now ts
    | none => check_tokens now ts

/-- The `_is_token_expired` method, a function of the persisted cache
file alone: `none` = the file does not exist; `some none` = the file
exists but cannot be decoded (the caught JSONDecodeError path);
`some (some d)` = decoded contents `d`. -/
def _is_token_expired (file : Option (Option CacheData)) (now : Int) : Bool :=
  match file with
  | none => true
  | some none => true
  | some (some d) =>
    if d.accessTokens.isEmpty then true else check_tokens now d.accessTokens

theorem check_tokens_cons_none (now : Int) (ts : List TokenEntry) :
    check_tokens now (TokenEntry.mk none :: ts) = check_tokens now ts := rfl

theorem check_tokens_cons_zero (now : Int) (ts : List TokenEntry) :
    check_tokens now (TokenEntry.mk (some 0) :: ts) = check_tokens now ts := by
  show (if (0 : Int) ≠ 0 then decide (now ≥ 0 - 60) else check_tokens now ts)
    = check_tokens now ts
  simp

theorem check_tokens_append_falsy (now : Int) (l : List TokenEntry) :
    ∀ pre : List TokenEntry,
      (∀ t ∈ pre, t.expires_on = none ∨ t.expires_on = some 0) →
      check_tokens now (pre ++ l) = check_tokens now l := by
  intro pre
  induction pre with
  | nil => intro _; rfl
  | cons t ts ih =>
    intro h
    have ht := h t (List.mem_cons_self t ts)
    rw [List.cons_append]
    have htail : check_tokens now (ts ++ l) = check_tokens now l :=
      ih (fun x hx => h x (List.mem_cons_of_mem _ hx))
    obtain ⟨eo⟩ := t
    simp only at ht
    rcases ht with ht | ht <;> subst ht
    · rw [check_tokens_cons_none, htail]
    · rw [check_tokens_cons_zero, htail]

/-- C4 counterexample: with two stored tokens — the first far from
expiry, the second already inside the 60-second buffer — the check
reports "not expired", even though the second stored token satisfies
`now >= expires_at - 60`; only the first token with a truthy expiry is
consulted, not every stored token. -/
theorem token_expiry_cex :
    TokenEntry.mk (some 1000000) ∈
        (CacheData.mk [TokenEntry.mk (some 2000000),
          TokenEntry.mk (some 1000000)]).accessTokens
      ∧ ((1000000 : Int) ≥ 1000000 - 60)
      ∧ _is_token_expired
          (some (some (CacheData.mk [TokenEntry.mk (some 2000000),
            TokenEntry.mk (some 1000000)]))) 1000000 = false := by
  refine ⟨by simp, by decide, by decide⟩

/-- C4 amended: the expiry check reads only the persisted cache file; a
missing or unreadable file, or a cache with no access token, reports
expired; otherwise the first stored token with a truthy expiry decides,
as expired exactly when `now >= expires_at - 60`.  In particular, for a
single-token cache, `expires_at = now+30s` reports expired and
`expires_at = now+120s` reports not expired. -/
theorem token_expiry_spec (now e : Int) (pre rest : List TokenEntry)
    (hpre : ∀ t ∈ pre, t.expires_on = none ∨ t.expires_on = some 0)
    (he : e ≠ 0) (hnow : 0 < now) :
    _is_token_expired none now = true
    ∧ _is_token_expired (some none) now = true
    ∧ _is_token_expired (some (some (CacheData.mk []))) now = true
    ∧ _is_token_expired
        (some (some (CacheData.mk (pre ++ TokenEntry.mk (some e) :: rest)))) now
      = decide (now ≥ e - 60)
    ∧ _is_token_expired
        (some (some (CacheData.mk [TokenEntry.mk (some (now + 30))]))) now = true
    ∧ _is_token_expired
        (some (some (CacheData.mk [TokenEntry.mk (some (now + 120))]))) now
      = false := by
  refine ⟨rfl, rfl, rfl, ?_, ?_, ?_⟩
  · show (if (pre ++ TokenEntry.mk (some e) :: rest).isEmpty then true
      else check_tokens now (pre ++ TokenEntry.mk (some e) :: rest))
      = decide (now ≥ e - 60)
    have hne : (pre ++ TokenEntry.mk (some e) :: rest).isEmpty = false := by
      cases pre <;> simp
    rw [hne]
    simp only [Bool.false_eq_true, if_false]
    rw [check_tokens_append_falsy now _ pre hpre]
    unfold check_tokens
    simp [he]
  · show (if ([TokenEntry.mk (some (now + 30))] : List TokenEntry).isEmpty then true
      else check_tokens now [TokenEntry.mk (some (now + 30))]) = true
    have h30 : now + 30 ≠ 0 := by omega
    simp only [List.isEmpty, Bool.false_eq_true, if_false]
    unfold check_tokens
    simp only [h30, ne_eq, not_false_eq_true, if_true]
    simp only [decide_eq_true_eq]
    omega
  · show (if ([TokenEntry.mk (some (now + 120))] : List TokenEntry).isEmpty then true
      else check_tokens now [TokenEntry.mk (some (now + 120))]) = false
    have h120 : now + 120 ≠ 0 := by omega
    simp only [List.isEmpty, Bool.false_eq_true, if_false]
    unfold check_tokens
    simp only [h120, ne_eq, not_false_eq_true, if_true]
    simp only [decide_eq_false_iff_not]
    omega

/-- Witness for `token_expiry_spec` at a concrete clock and cache. -/
theorem token_expiry_spec_witness :
    ((∀ t ∈ [TokenEntry.mk none, TokenEntry.mk (some 0)],
        t.expires_on = none ∨ t.expires_on = some 0)
      ∧ (1700000000 : Int) ≠ 0 ∧ (0 : Int) < 1000)
    ∧ (_is_token_expired none 1000 = true
      ∧ _is_token_expired (some none) 1000 = true
      ∧ _is_token_expired (some (some (CacheData.mk []))) 1000 = true
      ∧ _is_token_expired
          (some (some (CacheData.mk ([TokenEntry.mk none, TokenEntry.mk (some 0)]
            ++ TokenEntry.mk (some 1700000000) :: [])))) 1000
        = decide ((1000 : Int) ≥ 1700000000 - 60)
      ∧ _is_token_expired
          (some (some (CacheData.mk [TokenEntry.mk (some (1000 + 30))]))) 1000 = true
      ∧ _is_token_expired
          (some (some (CacheData.mk [TokenEntry.mk (some (1000 + 120))]))) 1000
        = false) :=
  ⟨⟨by decide, by decide, by decide⟩,
    token_expiry_spec 1000 1700000000 [TokenEntry.mk none, TokenEntry.mk (some 0)] []
      (by decide) (by decide) (by decide)⟩

/-! ## Token acquisition (src/auth.py, `get_access_token`, lines 131-172) -/

/-- Outcome of `acquire_token_silent`: it may return `None`, a dict with
an access_token, a dict with an error, or raise. -/
inductive SilentOutcome
  | noResult
  | success (token : String)
  | errorResult (err : String)
  | raised
deriving DecidableEq, Repr

/-- Outcome of `acquire_token_for_client`, the fresh client-credentials
exchange: a dict with an access_token, a dict without one (invalid
credentials and similar), or a raised exception (identity provider
unreachable and similar). -/
inductive FreshOutcome
  | success (token : String)
  | errorResult (err : String)
  | raised
deriving DecidableEq, Repr

/-- Side effects of one `get_access_token` call. -/
inductive AuthEffect
  | saveCache
deriving DecidableEq, Repr

/-- The token returned by the silent-acquisition path, when the call is
not a forced refresh, `get_accounts()` is non-empty and
`acquire_token_silent` returns a dict containing an access_token. -/
def silent_hit (force_refresh has_accounts : Bool) (s : SilentOutcome) :
    Option String :=
  if force_refresh then none
  else if has_accounts then
    match s with
    | SilentOutcome.success t => some t
    | _ => none
  else none

/-- The `get_access_token` method: try the cache silently (unless
`force_refresh`), fall back to a fresh exchange; on fresh success call
`_save_cache` and then return the token; on a fresh error dict or a
raised exception, log and return `None`.  The result pairs the Python
return value with the effects the call performed. -/
def get_access_token (force_refresh has_accounts : Bool)
    (s : SilentOutcome) (f : FreshOutcome) : Option String × List AuthEffect :=
  match silent_hit force_refresh has_accounts s with
  | some t => (some t, [])
  | none =>
    match f with
    | FreshOutcome.success t => (some t, [AuthEffect.saveCache])
    | FreshOutcome.errorResult _ => (none, [])
    | FreshOutcome.raised => (none, [])

/-- C5 counterexample: with invalid credentials (the fresh exchange
returns an error dict) or an unreachable identity provider (it raises),
`get_access_token` returns `None` — the failure outcome is exactly the
silently-absent token the claim rules out, not a raised or returned
AuthError value. -/
theorem get_access_token_cex :
    get_access_token true false SilentOutcome.noResult
        (FreshOutcome.errorResult "invalid_client") = (none, [])
      ∧ get_access_token true false SilentOutcome.noResult FreshOutcome.raised
        = (none, []) :=
  ⟨rfl, rfl⟩

/-- C5 amended: whenever the silent path yields no token, acquisition
with invalid credentials or an unreachable identity provider fails by
returning `None` (after logging), not by surfacing an AuthError; on any
fresh token-exchange success `_save_cache` is invoked — persisting the
updated cache — before the token is returned. -/
theorem get_access_token_spec (fr ha : Bool) (s : SilentOutcome) (f : FreshOutcome)
    (hmiss : silent_hit fr ha s = none) :
    (∀ err, f = FreshOutcome.errorResult err →
        get_access_token fr ha s f = (none, []))
    ∧ (f = FreshOutcome.raised → get_access_token fr ha s f = (none, []))
    ∧ (∀ t, f = FreshOutcome.success t →
        get_access_token fr ha s f = (some t, [AuthEffect.saveCache])) := by
  refine ⟨fun err hf => ?_, fun hf => ?_, fun t hf => ?_⟩ <;>
    · unfold get_access_token
      rw [hmiss, hf]

/-- Witness for `get_access_token_spec`: forced refresh with a
successful fresh exchange. -/
theorem get_access_token_spec_witness :
    silent_hit true false SilentOutcome.noResult = none
    ∧ ((∀ err, FreshOutcome.success "tok" = FreshOutcome.errorResult err →
          get_access_token true false SilentOutcome.noResult
            (FreshOutcome.success "tok") = (none, []))
      ∧ (FreshOutcome.success "tok" = FreshOutcome.raised →
          get_access_token true false SilentOutcome.noResult
            (FreshOutcome.success "tok") = (none, []))
      ∧ (∀ t, FreshOutcome.success "tok" = FreshOutcome.success t →
          get_access_token true false SilentOutcome.noResult
            (FreshOutcome.success "tok") = (some t, [AuthEffect.saveCache]))) :=
  ⟨rfl, get_access_token_spec true false SilentOutcome.noResult
    (FreshOutcome.success "tok") rfl⟩

/-! ## Transfer dedup (src/data_runner/data_puller.py, `_download_entries`,
    lines 57-70) -/

/-- One manifest entry as consumed by the downloader. -/
structure ManifestEntry where
  filename : String
  downloadUrl : String
  fileSize : Nat
deriving DecidableEq, Repr

def basenameAux (acc : List Char) : List Char → List Char
  | [] => acc
  | c :: rest => if c = '/' then basenameAux [] rest else basenameAux (acc ++ [c]) rest

/-- Model of `Path(filename).name` for paths without a trailing
separator: the component after the last `/`. -/
def basename (s : String) : String := String.mk (basenameAux [] s.data)

/-- The `_download_entries` loop over the manifest entries, given the
basenames already present in the data directory.  An entry whose
basename exists is skipped — appended to the returned `downloaded` list
with no request and no content check of any kind; otherwise one GET of
its `downloadUrl` is issued and the destination file comes into
existence (so a later entry with the same basename is skipped).  Returns
the network requests issued, in order, and the `downloaded` list of
basenames. -/
def _download_entries (existing : List String) :
    List ManifestEntry → List String × List String
  | [] => ([], [])
  | e :: rest =>
    let fn := basename e.filename
    if fn ∈ existing then
      let r := _download_entries existing rest
      (r.1, fn :: r.2)
    else
      let r := _download_entries (basename e.filename :: existing) rest
      (e.downloadUrl :: r.1, fn :: r.2)

/-- C8: when every manifest entry's basename already exists at the
destination, the transfer issues zero network requests, and every entry
is still reported in the `downloaded` list — skipped with no download
and no content validation. -/
theorem download_entries_dedup (existing : List String)
    (entries : List ManifestEntry)
    (h : ∀ e ∈ entries, basename e.filename ∈ existing) :
    (_download_entries existing entries).1 = []
    ∧ (_download_entries existing entries).2
      = entries.map (fun e => basename e.filename) := by
  induction entries with
  | nil => exact ⟨rfl, rfl⟩
  | cons e rest ih =>
    have he := h e (List.mem_cons_self e rest)
    have hrest := ih (fun x hx => h x (List.mem_cons_of_mem _ hx))
    unfold _download_entries
    simp only [he, if_pos]
    rw [List.map_cons]
    exact ⟨hrest.1, by rw [hrest.2]⟩

/-- Witness for `download_entries_dedup`: re-transferring a two-entry
manifest whose files are both already present. -/
theorem download_entries_dedup_witness :
    (∀ e ∈ [ManifestEntry.mk "delta/delta-light-vehicle_02-02-2026.zip"
              "https://history.mot.api.gov.uk/d1" 10,
            ManifestEntry.mk "delta-light-vehicle_03-02-2026.zip"
              "https://history.mot.api.gov.uk/d2" 20],
        basename e.filename ∈
          ["delta-light-vehicle_02-02-2026.zip", "delta-light-vehicle_03-02-2026.zip"])
    ∧ ((_download_entries
          ["delta-light-vehicle_02-02-2026.zip", "delta-light-vehicle_03-02-2026.zip"]
          [ManifestEntry.mk "delta/delta-light-vehicle_02-02-2026.zip"
              "https://history.mot.api.gov.uk/d1" 10,
            ManifestEntry.mk "delta-light-vehicle_03-02-2026.zip"
              "https://history.mot.api.gov.uk/d2" 20]).1 = []
      ∧ (_download_entries
          ["delta-light-vehicle_02-02-2026.zip", "delta-light-vehicle_03-02-2026.zip"]
          [ManifestEntry.mk "delta/delta-light-vehicle_02-02-2026.zip"
              "https://history.mot.api.gov.uk/d1" 10,
            ManifestEntry.mk "delta-light-vehicle_03-02-2026.zip"
              "https://history.mot.api.gov.uk/d2" 20]).2
        = [ManifestEntry.mk "delta/delta-light-vehicle_02-02-2026.zip"
              "https://history.mot.api.gov.uk/d1" 10,
            ManifestEntry.mk "delta-light-vehicle_03-02-2026.zip"
              "https://history.mot.api.gov.uk/d2" 20].map
            (fun e => basename e.filename)) :=
  ⟨by decide, download_entries_dedup
    ["delta-light-vehicle_02-02-2026.zip", "delta-light-vehicle_03-02-2026.zip"]
    [ManifestEntry.mk "delta/delta-light-vehicle_02-02-2026.zip"
        "https://history.mot.api.gov.uk/d1" 10,
      ManifestEntry.mk "delta-light-vehicle_03-02-2026.zip"
        "https://history.mot.api.gov.uk/d2" 20]
    (by decide)⟩

/-! ## Record normalization (src/data_runner/data_processor.py) -/

/-- A calendar date, day-month-year, as handled by `datetime`. -/
structure PDate where
  day : Nat
  month : Nat
  year : Nat
deriving DecidableEq, Repr

def isLeap (y : Nat) : Bool :=
  (y % 4 == 0 && !(y % 100 == 0)) || y % 400 == 0

def daysInMonth (y m : Nat) : Nat :=
  if m = 2 then (if isLeap y then 29 else 28)
  else if m = 4 ∨ m = 6 ∨ m = 9 ∨ m = 11 then 30
  else 31

/-- The date range `datetime.strptime` accepts for `%d-%m-%Y`. -/
def validDate (d : PDate) : Bool :=
  decide (1 ≤ d.month) && decide (d.month ≤ 12) && decide (1 ≤ d.day)
    && decide (d.day ≤ daysInMonth d.year d.month) && decide (1 ≤ d.year)

/-- The Gregorian previous day, `date_obj - timedelta(days=1)`. -/
def prevDay (d : PDate) : PDate :=
  if 1 < d.day then PDate.mk (d.day - 1) d.month d.year
  else if 1 < d.month then
    PDate.mk (daysInMonth d.year (d.month - 1)) (d.month - 1) d.year
  else PDate.mk 31 12 (d.year - 1)

def digitVal (c : Char) : Nat := c.toNat - 48

/-- Matches ten characters against the mask `\d\d-\d\d-\d\d\d\d` and
reads them as day, month, year. -/
def parseDateMask : List Char → Option PDate
  | [a, b, s1, c, d, s2, e, f, g, i] =>
    if a.isDigit && b.isDigit && (s1 == '-') && c.isDigit && d.isDigit
        && (s2 == '-') && e.isDigit && f.isDigit && g.isDigit && i.isDigit then
      some (PDate.mk (10 * digitVal a + digitVal b)
        (10 * digitVal c + digitVal d)
        (1000 * digitVal e + 100 * digitVal f + 10 * digitVal g + digitVal i))
    else none
  | _ => none

/-- Model of `re.search(r"(\d\x7b2\x7d-\d\x7b2\x7d-\d\x7b4\x7d)$", folder_name)`:
the pattern has fixed length ten and is anchored at the end, so it
matches exactly when the final ten characters fit the mask. -/
def parseFolderDate (folderName : String) : Option PDate :=
  let cs := folderName.data
  parseDateMask (cs.drop (cs.length - 10))

def pad2 (n : Nat) : String := if n < 10 then "0" ++ toString n else toString n

def pad4 (n : Nat) : String :=
  if n < 10 then "000" ++ toString n
  else if n < 100 then "00" ++ toString n
  else if n < 1000 then "0" ++ toString n
  else toString n

/-- The `%d-%m-%Y` rendering used by `strftime`. -/
def formatDate (d : PDate) : String :=
  pad2 d.day ++ "-" ++ pad2 d.month ++ "-" ++ pad4 d.year

/-- `extract_date_from_folder` (lines 44-53): empty string when the
regex finds no date suffix; the folder date minus one day, formatted
`%d-%m-%Y`, when it does; `Except.error` models the `ValueError` that
`strptime` raises — uncaught — on a mask match that is not a real date. -/
def extract_date_from_folder (folder_name : String) : Except Unit String :=
  match parseFolderDate folder_name with
  | none => Except.ok ""
  | some d =>
    if validDate d then Except.ok (formatDate (prevDay d)) else Except.error ()

/-- One vehicle record parsed from a JSON line: `payload` abstracts all
fields other than "date"; `date` is the record's "date" field, which the
processor overwrites. -/
structure VRec where
  payload : Nat
  date : String
deriving DecidableEq, Repr

/-- One line of a decompressed member file: blank after strip (skipped),
a valid JSON record, or a line on which `json.loads` — or the gzip
stream itself — raises. -/
inductive RawLine
  | blank
  | valid (r : VRec)
  | malformed
deriving DecidableEq, Repr

/-- The assignment `record["date"] = date_str`. -/
def tagDate (ds : String) (r : VRec) : VRec := { r with date := ds }

/-- The per-member loop of `process_folder` (lines 82-95): blank lines
are skipped, valid lines are date-tagged and written out; the first
malformed line raises inside the `try`, the handler prints the error at
member level, and the rest of this member is dropped while the records
already written stay. -/
def processMember (ds : String) : List RawLine → List VRec
  | [] => []
  | RawLine.blank :: rest => processMember ds rest
  | RawLine.malformed :: _ => []
  | RawLine.valid r :: rest => tagDate ds r :: processMember ds rest

/-- A compressed member file of a period directory. -/
structure Member where
  name : String
  lines : List RawLine
deriving DecidableEq, Repr

/-- Lexicographic comparison of character lists by code point — Python's
string order. -/
def ltChars : List Char → List Char → Bool
  | [], [] => false
  | [], _ :: _ => true
  | _ :: _, [] => false
  | a :: as, b :: bs => if a < b then true else if b < a then false else ltChars as bs

def nameLt (a b : Member) : Bool := ltChars a.name.data b.name.data

def orderedInsertMember (m : Member) : List Member → List Member
  | [] => [m]
  | x :: xs => if nameLt m x then m :: x :: xs else x :: orderedInsertMember m xs

/-- `sorted(folder_path.glob("*.json.gz"))`: the members in name order,
as a stable insertion sort (glob yields distinct names, so any stable
sort models `sorted`). -/
def sortByName : List Member → List Member
  | [] => []
  | m :: ms => orderedInsertMember m (sortByName ms)

theorem mem_orderedInsertMember {m x : Member} :
    ∀ l : List Member, x ∈ orderedInsertMember m l ↔ x = m ∨ x ∈ l := by
  intro l
  induction l with
  | nil => simp [orderedInsertMember]
  | cons y ys ih =>
    unfold orderedInsertMember
    by_cases h : nameLt m y = true
    · simp [h]
    · simp only [h, Bool.false_eq_true, if_false, List.mem_cons, ih]
      tauto

theorem mem_sortByName {x : Member} :
    ∀ ms : List Member, x ∈ sortByName ms ↔ x ∈ ms := by
  intro ms
  induction ms with
  | nil => simp [sortByName]
  | cons m rest ih =>
    unfold sortByName
    rw [mem_orderedInsertMember, ih]
    simp [eq_comm]

/-- `process_folder` for one period directory: `Except.error` when the
folder name's date suffix is not a real date (`strptime` raises before
anything else happens); `Except.ok none` when the directory has no
compressed member, so no output is written; otherwise the NDJSON output
written — the members in name-sorted order, each line date-tagged with
the folder date minus one day. -/
def process_folder (folderName : String) (members : List Member) :
    Except Unit (Option (List VRec)) :=
  match extract_date_from_folder folderName with
  | Except.error e => Except.error e
  | Except.ok ds =>
    if members.isEmpty then Except.ok none
    else
      Except.ok (some ((sortByName members).flatMap
        (fun m => processMember ds m.lines)))

/-- The spec's description of one member's contribution to the output:
every valid record of the member, date-tagged — with no truncation at a
malformed line. -/
def allValidTagged (ds : String) (lines : List RawLine) : List VRec :=
  lines.filterMap (fun l =>
    match l with
    | RawLine.valid r => some (tagDate ds r)
    | _ => none)

theorem processMember_eq_allValid_of_clean (ds : String) :
    ∀ lines : List RawLine, RawLine.malformed ∉ lines →
      processMember ds lines = allValidTagged ds lines := by
  intro lines
  induction lines with
  | nil => intro _; rfl
  | cons l rest ih =>
    intro h
    have hrest : RawLine.malformed ∉ rest := fun hr => h (List.mem_cons_of_mem _ hr)
    cases l with
    | blank =>
      show processMember ds rest = allValidTagged ds (RawLine.blank :: rest)
      rw [ih hrest]
      rfl
    | valid r =>
      show tagDate ds r :: processMember ds rest
        = allValidTagged ds (RawLine.valid r :: rest)
      rw [ih hrest]
      rfl
    | malformed => exact absurd (List.mem_cons_self _ _) h

theorem flatMap_congr_mem {α β : Type} {f g : α → List β} :
    ∀ l : List α, (∀ x ∈ l, f x = g x) → l.flatMap f = l.flatMap g := by
  intro l
  induction l with
  | nil => intro _; rfl
  | cons x xs ih =>
    intro h
    rw [List.flatMap_cons, List.flatMap_cons, h x (List.mem_cons_self x xs),
      ih (fun y hy => h y (List.mem_cons_of_mem _ hy))]

theorem processMember_append_malformed (ds : String) :
    ∀ pre : List RawLine, RawLine.malformed ∉ pre → ∀ post,
      processMember ds (pre ++ RawLine.malformed :: post) = allValidTagged ds pre := by
  intro pre
  induction pre with
  | nil => intro _ _; rfl
  | cons l rest ih =>
    intro h post
    have hrest : RawLine.malformed ∉ rest := fun hr => h (List.mem_cons_of_mem _ hr)
    cases l with
    | blank =>
      rw [List.cons_append]
      show processMember ds (rest ++ RawLine.malformed :: post)
        = allValidTagged ds (RawLine.blank :: rest)
      rw [ih hrest post]
      rfl
    | valid r =>
      rw [List.cons_append]
      show tagDate ds r :: processMember ds (rest ++ RawLine.malformed :: post)
        = allValidTagged ds (RawLine.valid r :: rest)
      rw [ih hrest post]
      rfl
    | malformed => exact absurd (List.mem_cons_self _ _) h

/-- C6 counterexample: a malformed first line makes the same member's
later valid entry disappear from the output — the `try` wraps the whole
member read, so recovery is per member file, not per entry. -/
theorem normalization_entry_skip_cex :
    processMember "01-02-2026" [RawLine.malformed, RawLine.valid (VRec.mk 7 "")] = []
    ∧ RawLine.valid (VRec.mk 7 "") ∈
        [RawLine.malformed, RawLine.valid (VRec.mk 7 "")]
    ∧ tagDate "01-02-2026" (VRec.mk 7 "") ∉
        processMember "01-02-2026" [RawLine.malformed, RawLine.valid (VRec.mk 7 "")] :=
  ⟨rfl, by decide, by decide⟩

/-- C6 amended: a malformed line is recovered at member level, not entry
level: the member's valid entries before it are kept (date-tagged), the
rest of that member is dropped with a recorded error, and processing
continues with the period's remaining member files. -/
theorem normalization_member_recovery (ds : String) (pre post ls2 : List RawLine)
    (hpre : RawLine.malformed ∉ pre) :
    processMember ds (pre ++ RawLine.malformed :: post) = allValidTagged ds pre
    ∧ process_folder "delta-light-vehicle_03-02-2026"
        [Member.mk "a.json.gz" (pre ++ RawLine.malformed :: post),
          Member.mk "b.json.gz" ls2]
      = Except.ok (some (allValidTagged "02-02-2026" pre
          ++ processMember "02-02-2026" ls2)) := by
  refine ⟨processMember_append_malformed ds pre hpre post, ?_⟩
  have h1 : process_folder "delta-light-vehicle_03-02-2026"
      [Member.mk "a.json.gz" (pre ++ RawLine.malformed :: post),
        Member.mk "b.json.gz" ls2]
    = Except.ok (some (processMember "02-02-2026" (pre ++ RawLine.malformed :: post)
        ++ (processMember "02-02-2026" ls2 ++ []))) := rfl
  rw [h1, processMember_append_malformed "02-02-2026" pre hpre post, List.append_nil]

/-- Witness for `normalization_member_recovery` at a concrete period. -/
theorem normalization_member_recovery_witness :
    (RawLine.malformed ∉ [RawLine.valid (VRec.mk 1 "")])
    ∧ (processMember "02-02-2026"
        ([RawLine.valid (VRec.mk 1 "")] ++ RawLine.malformed
          :: [RawLine.valid (VRec.mk 2 "")])
        = allValidTagged "02-02-2026" [RawLine.valid (VRec.mk 1 "")]
      ∧ process_folder "delta-light-vehicle_03-02-2026"
          [Member.mk "a.json.gz" ([RawLine.valid (VRec.mk 1 "")] ++ RawLine.malformed
            :: [RawLine.valid (VRec.mk 2 "")]),
            Member.mk "b.json.gz" [RawLine.valid (VRec.mk 3 "")]]
        = Except.ok (some (allValidTagged "02-02-2026" [RawLine.valid (VRec.mk 1 "")]
            ++ processMember "02-02-2026" [RawLine.valid (VRec.mk 3 "")]))) :=
  ⟨by decide, normalization_member_recovery "02-02-2026"
    [RawLine.valid (VRec.mk 1 "")] [RawLine.valid (VRec.mk 2 "")]
    [RawLine.valid (VRec.mk 3 "")] (by decide)⟩

/-- C7 counterexample: a member holding a malformed line between two
valid records — the written output keeps only the record before the bad
line, so it is not the concatenation of all valid records across the
period's members. -/
theorem process_folder_cex :
    process_folder "delta-light-vehicle_02-02-2026"
        [Member.mk "a.json.gz" [RawLine.valid (VRec.mk 1 ""), RawLine.malformed,
          RawLine.valid (VRec.mk 2 "")]]
      = Except.ok (some [VRec.mk 1 "01-02-2026"])
    ∧ (sortByName [Member.mk "a.json.gz" [RawLine.valid (VRec.mk 1 ""),
          RawLine.malformed, RawLine.valid (VRec.mk 2 "")]]).flatMap
        (fun m => allValidTagged "01-02-2026" m.lines)
      = [VRec.mk 1 "01-02-2026", VRec.mk 2 "01-02-2026"]
    ∧ ([VRec.mk 1 "01-02-2026"] : List VRec)
      ≠ [VRec.mk 1 "01-02-2026", VRec.mk 2 "01-02-2026"] :=
  ⟨rfl, rfl, by decide⟩

/-- C7 amended: for a period directory with at least one compressed
member, none of which contains a malformed line (the spec's "valid input
members"), and whose folder name carries a valid date suffix, the
normalization output equals the concatenation over the name-sorted
members of all their valid records, each given a date equal to the
folder date minus one day. -/
theorem process_folder_normalizes (folderName : String) (members : List Member)
    (d : PDate) (hparse : parseFolderDate folderName = some d)
    (hvalid : validDate d = true) (hne : members ≠ [])
    (hclean : ∀ m ∈ members, RawLine.malformed ∉ m.lines) :
    process_folder folderName members
      = Except.ok (some ((sortByName members).flatMap
          (fun m => allValidTagged (formatDate (prevDay d)) m.lines))) := by
  unfold process_folder extract_date_from_folder
  rw [hparse]
  simp only [hvalid, if_true]
  have hle : members.isEmpty = false := by
    cases members with
    | nil => exact absurd rfl hne
    | cons m rest => rfl
  rw [hle]
  simp only [Bool.false_eq_true, if_false]
  congr 2
  apply flatMap_congr_mem
  intro m hm
  exact processMember_eq_allValid_of_clean _ m.lines
    (hclean m ((mem_sortByName members).mp hm))

/-- Witness for `process_folder_normalizes`: two clean members listed
out of name order. -/
theorem process_folder_normalizes_witness :
    (parseFolderDate "delta-light-vehicle_03-02-2026" = some (PDate.mk 3 2 2026)
      ∧ validDate (PDate.mk 3 2 2026) = true
      ∧ ([Member.mk "b.json.gz" [RawLine.valid (VRec.mk 2 "")],
          Member.mk "a.json.gz" [RawLine.blank, RawLine.valid (VRec.mk 1 "")]]
            : List Member) ≠ []
      ∧ (∀ m ∈ [Member.mk "b.json.gz" [RawLine.valid (VRec.mk 2 "")],
          Member.mk "a.json.gz" [RawLine.blank, RawLine.valid (VRec.mk 1 "")]],
          RawLine.malformed ∉ m.lines))
    ∧ process_folder "delta-light-vehicle_03-02-2026"
        [Member.mk "b.json.gz" [RawLine.valid (VRec.mk 2 "")],
          Member.mk "a.json.gz" [RawLine.blank, RawLine.valid (VRec.mk 1 "")]]
      = Except.ok (some ((sortByName
          [Member.mk "b.json.gz" [RawLine.valid (VRec.mk 2 "")],
            Member.mk "a.json.gz" [RawLine.blank, RawLine.valid (VRec.mk 1 "")]]).flatMap
          (fun m => allValidTagged (formatDate (prevDay (PDate.mk 3 2 2026)))
            m.lines))) :=
  ⟨⟨rfl, rfl, by decide, by decide⟩,
    process_folder_normalizes "delta-light-vehicle_03-02-2026"
      [Member.mk "b.json.gz" [RawLine.valid (VRec.mk 2 "")],
        Member.mk "a.json.gz" [RawLine.blank, RawLine.valid (VRec.mk 1 "")]]
      (PDate.mk 3 2 2026) rfl rfl (by decide) (by decide)⟩

end MotwotGcp
